import Mathlib

/-!
# Lockin-Ai session telemetry engine: a shallow embedding

Definitions translate the client engine in `frontend/src/App.jsx`
(vision-payload classifier, focus smoother, session lifecycle, timeline
recorder, alert debouncer, most-common-distractor resolver) into Lean.
JS numbers are modelled as rationals, JS `undefined`/non-numeric fields as
`Option`, times as natural-number milliseconds.
-/

/-- Character-by-character prefix test on lists of characters. -/
def isPrefixList : List Char → List Char → Bool
  | [], _ => true
  | _ :: _, [] => false
  | c :: cs, d :: ds => c == d && isPrefixList cs ds

/-- Contiguous-sublist (substring) test, `JS String.prototype.includes`. -/
def hasSubList (pat : List Char) : List Char → Bool
  | [] => pat.isEmpty
  | c :: rest => isPrefixList pat (c :: rest) || hasSubList pat rest

/-- `s.includes pat` from JS: `pat` occurs contiguously in `s`. -/
def strContains (s pat : String) : Bool :=
  hasSubList pat.data s.data

/-- `String.prototype.toLowerCase`, character by character. -/
def strLower (s : String) : String :=
  ⟨s.data.map Char.toLower⟩

/-- Strip leading and trailing whitespace from a character list. -/
def trimChars (l : List Char) : List Char :=
  ((l.dropWhile Char.isWhitespace).reverse.dropWhile Char.isWhitespace).reverse

/-- `String.prototype.trim`. -/
def strTrim (s : String) : String :=
  ⟨trimChars s.data⟩

/-- `Math.round(x)` for a JS number (`⌊x + 1/2⌋`). -/
def jsRound (q : ℚ) : ℤ := ⌊q + 1/2⌋

/-- `Math.round(ms / 1000)` for a non-negative duration in milliseconds. -/
def jsRoundMs (ms : ℕ) : ℕ := (ms + 500) / 1000

/-- The `visionConfig` record (detection thresholds) of the client. -/
structure VisionConfig where
  hMin : ℚ
  hMax : ℚ
  vMin : ℚ
  vMax : ℚ
  earThreshold : ℚ
  audioThreshold : ℚ
  includeTalking : Bool
  includeObjects : Bool
deriving Repr, DecidableEq

/-- The initial `visionConfig` literal in `App.jsx`. -/
def initialVisionConfig : VisionConfig :=
  { hMin := 35/100, hMax := 65/100, vMin := 35/100, vMax := 6/10,
    earThreshold := 3/10, audioThreshold := 15/10,
    includeTalking := true, includeObjects := true }

/-- One inbound vision payload as consumed by `evaluateFocus`.
`none` in a numeric field covers both an absent field and a present
non-numeric value (the JS code guards with `typeof x === "number"`);
`state = none` covers an absent or falsy `state`. -/
structure VisionSample where
  h_ratio : Option ℚ := none
  v_ratio : Option ℚ := none
  left_ear : Option ℚ := none
  state : Option String := none
  objects : Option (List String) := none
  volume : Option ℚ := none
deriving Repr, DecidableEq

/-- A classification verdict `{ focused, reason }`. -/
structure Verdict where
  focused : Bool
  reason : String
deriving Repr, DecidableEq

/-- `String(state || "").toLowerCase()` for a sample (`visionData || {}`). -/
def sampleNormState (sample : Option VisionSample) : String :=
  strLower (((sample.getD {}).state).getD "")

/-- The lower-cased object list of a sample (`objects || []`). -/
def sampleNormObjects (sample : Option VisionSample) : List String :=
  (((sample.getD {}).objects).getD []).map strLower

/-- The fixed distractor-object set of `evaluateFocus`. -/
def distractedObjects : List String :=
  ["phone", "cell phone", "tablet", "ipad", "book"]

/-- The classifier `evaluateFocus(visionData)` of `App.jsx`, with the
config and the effective talking flag made explicit parameters. -/
def evaluateFocus (cfg : VisionConfig) (inc : Bool)
    (sample : Option VisionSample) : Verdict :=
  let s := sample.getD {}
  let normalizedState := strLower (s.state.getD "")
  let normalizedObjects := (s.objects.getD []).map strLower
  let hasDistractor :=
    normalizedObjects.any (fun item => distractedObjects.contains item)
  if hasDistractor then
    { focused := false, reason := "distractor" }
  else if strContains normalizedState "phone" ||
      strContains normalizedState "book" then
    { focused := false, reason := "distractor" }
  else if inc && strContains normalizedState "talking" then
    { focused := false, reason := "audio" }
  else if strContains normalizedState "no face" then
    { focused := false, reason := "no-face" }
  else if (match s.left_ear with
      | some e => decide (e < cfg.earThreshold)
      | none => false) then
    { focused := false, reason := "eyes-closed" }
  else if normalizedState == "focused" || normalizedState == "at screen" then
    { focused := true, reason := "state" }
  else if (match s.h_ratio, s.v_ratio with
      | some h, some v =>
        decide (cfg.hMin ≤ h ∧ h ≤ cfg.hMax ∧ cfg.vMin ≤ v ∧ v ≤ cfg.vMax)
      | _, _ => false) then
    { focused := true, reason := "centered" }
  else
    { focused := false, reason := "off-center" }

/-- Rule 1 condition: a detected object from the fixed distractor set. -/
def ruleObjects (sample : Option VisionSample) : Bool :=
  (sampleNormObjects sample).any (fun item => distractedObjects.contains item)

/-- Rule 2 condition: state contains "phone" or "book". -/
def ruleStateDistractor (sample : Option VisionSample) : Bool :=
  strContains (sampleNormState sample) "phone" ||
    strContains (sampleNormState sample) "book"

/-- Rule 3 condition: talking inclusion enabled and state contains "talking". -/
def ruleTalking (inc : Bool) (sample : Option VisionSample) : Bool :=
  inc && strContains (sampleNormState sample) "talking"

/-- Rule 4 condition: state contains "no face". -/
def ruleNoFace (sample : Option VisionSample) : Bool :=
  strContains (sampleNormState sample) "no face"

/-- Rule 5 condition: numeric `left_ear` strictly below the ear threshold. -/
def ruleEyesClosed (cfg : VisionConfig) (sample : Option VisionSample) : Bool :=
  match (sample.getD {}).left_ear with
  | some e => decide (e < cfg.earThreshold)
  | none => false

/-- Rule 6 condition: state equal to "focused" or "at screen". -/
def ruleFocusedState (sample : Option VisionSample) : Bool :=
  sampleNormState sample == "focused" || sampleNormState sample == "at screen"

/-- Rule 7 condition: both gaze ratios numeric and inside the inclusive
configured bounds. -/
def ruleCentered (cfg : VisionConfig) (sample : Option VisionSample) : Bool :=
  match (sample.getD {}).h_ratio, (sample.getD {}).v_ratio with
  | some h, some v =>
    decide (cfg.hMin ≤ h ∧ h ≤ cfg.hMax ∧ cfg.vMin ≤ v ∧ v ≤ cfg.vMax)
  | _, _ => false

/-- The last `n` elements of a list in order: JS `Array.prototype.slice(-n)`. -/
def lastN {α : Type} (n : ℕ) (l : List α) : List α :=
  (l.reverse.take n).reverse

/-- The smoother state: `focusResults`, `focusLevel`, `currentState`. -/
structure SmootherState where
  window : List ℕ
  focusLevel : ℚ
  currentState : String
deriving Repr, DecidableEq

/-- Initial smoother state (`useState([])`, `useState(1)`, `useState("focused")`). -/
def initSmoother : SmootherState :=
  { window := [], focusLevel := 1, currentState := "focused" }

/-- A boolean verdict as the 0/1 value pushed into `focusResults`. -/
def verdictBit (b : Bool) : ℕ := if b then 1 else 0

/-- `pushFocusResult(isFocused)`: append the verdict, keep the last 60,
recompute the mean and the derived state (`average >= 0.7`). -/
def pushFocusResult (st : SmootherState) (isFocused : Bool) : SmootherState :=
  let nextResults := lastN 60 (st.window ++ [verdictBit isFocused])
  let average : ℚ := (nextResults.sum : ℚ) / nextResults.length
  { window := nextResults, focusLevel := average,
    currentState := if average ≥ 7/10 then "focused" else "distracted" }

/-- Push a whole verdict sequence into the smoother, oldest first. -/
def runSmoother (vs : List Bool) : SmootherState :=
  vs.foldl pushFocusResult initSmoother

/-- One `sessionTimeline` record. -/
structure TimelineEntry where
  elapsedSeconds : ℕ
  state : String
  label : String
deriving Repr, DecidableEq

/-- The session accumulators: `distractedStartRef`, `distractedTotalRef`,
`distractedCountRef` and the `sessionTimeline` list. -/
structure SessionState where
  distractedStart : Option ℕ
  distractedTotal : ℕ
  distractedCount : ℕ
  timeline : List TimelineEntry
deriving Repr, DecidableEq

/-- Accumulator state right after `startLesson`. -/
def initSessionState : SessionState :=
  { distractedStart := none, distractedTotal := 0, distractedCount := 0,
    timeline := [] }

/-- The focus-transition `useEffect`: one observation `(t, w, reason)` of the
smoothed warning flag `w = (focusLevel < 0.7)` at time `t` (ms) with the
current `distractorReason`, against session start `t0`. -/
def focusTransition (t0 : ℕ) (st : SessionState) (ob : ℕ × Bool × String) :
    SessionState :=
  let t := ob.1
  let w := ob.2.1
  let reason := ob.2.2
  let elapsedSeconds := jsRoundMs (t - t0)
  let st1 :=
    if w && st.distractedStart.isNone then
      { st with distractedStart := some t,
                distractedCount := st.distractedCount + 1,
                timeline := st.timeline ++
                  [{ elapsedSeconds := elapsedSeconds, state := "distracted",
                     label := if reason = "" then "distracted" else reason }] }
    else st
  if !w then
    match st1.distractedStart with
    | some s =>
      { st1 with distractedStart := none,
                 distractedTotal := st1.distractedTotal + jsRoundMs (t - s),
                 timeline := st1.timeline ++
                   [{ elapsedSeconds := elapsedSeconds, state := "focused",
                      label := "focused" }] }
    | none => st1
  else st1

/-- Fold a list of observations through the focus-transition effect,
starting from a fresh session. -/
def runSession (t0 : ℕ) (obs : List (ℕ × Bool × String)) : SessionState :=
  obs.foldl (focusTransition t0) initSessionState

/-- The completed-session record built by `endLesson`. -/
structure SessionSummary where
  totalSeconds : ℕ
  distractedSeconds : ℕ
  focusedSeconds : ℕ
  alerts : ℕ
deriving Repr, DecidableEq

/-- `endLesson()` at time `te` for a session started at `t0`: close any
open episode, then build the summary.  `focusedSeconds` uses truncated
subtraction, which is exactly `Math.max(totalSeconds - distractedSeconds, 0)`. -/
def endLesson (t0 te : ℕ) (st : SessionState) : SessionSummary :=
  let finalTotal :=
    match st.distractedStart with
    | some s => st.distractedTotal + jsRoundMs (te - s)
    | none => st.distractedTotal
  let totalSeconds := max 1 (jsRoundMs (te - t0))
  let distractedSeconds := finalTotal
  let focusedSeconds := totalSeconds - distractedSeconds
  { totalSeconds := totalSeconds, distractedSeconds := distractedSeconds,
    focusedSeconds := focusedSeconds, alerts := st.distractedCount }

/-- The client state touched by `startLesson`. -/
structure AppState where
  remainingSeconds : ℤ
  sessionSummary : Option SessionSummary
  sessionTimeline : List TimelineEntry
  focusResults : List ℕ
  focusLevel : ℚ
  sessionStart : Option ℕ
  distractedStart : Option ℕ
  distractedTotal : ℕ
  distractedCount : ℕ
  lessonStarted : Bool
deriving Repr, DecidableEq

/-- The `lessonMinutes` input as seen by `startLesson`: a string that trims
to empty, a string whose `Number(...)` is NaN or infinite, or a finite
numeric value. -/
inductive DurationInput
  | blank
  | nonFinite
  | numeric (minutes : ℚ)
deriving Repr, DecidableEq

/-- `startLesson(event)`: validate the duration, then reset all session
state; on any invalid input return with no state change. -/
def startLesson (input : DurationInput) (now : ℕ) (st : AppState) : AppState :=
  match input with
  | .blank => st
  | .nonFinite => st
  | .numeric minutes =>
    if minutes ≤ 0 then st
    else
      { remainingSeconds := jsRound (minutes * 60),
        sessionSummary := none, sessionTimeline := [], focusResults := [],
        focusLevel := 1, sessionStart := some now, distractedStart := none,
        distractedTotal := 0, distractedCount := 0, lessonStarted := true }

/-- The part of an echoed backend config the client consults.  The field is
`Option` because `backendConfig?.include_talking ?? ...` falls back when the
echoed object lacks the key. -/
structure BackendConfig where
  include_talking : Option Bool
deriving Repr, DecidableEq

/-- `effectiveIncludeTalking = backendConfig?.include_talking ?? visionConfig.includeTalking`. -/
def effectiveIncludeTalking (backendConfig : Option BackendConfig)
    (cfg : VisionConfig) : Bool :=
  match backendConfig with
  | some c => c.include_talking.getD cfg.includeTalking
  | none => cfg.includeTalking

/-- The state behind one socket's `onmessage` handler: the current
`backendConfig` React state, and the `effectiveIncludeTalking` value the
handler closed over when the socket `useEffect` ran.  The effect's
dependency array is `[trackingEnabled]` only, so an echo updating
`backendConfig` re-renders the component but never reassigns the handler:
the captured value stays in force for the socket's whole life. -/
structure SocketRun where
  backendConfig : Option BackendConfig
  capturedIncludeTalking : Bool
deriving Repr, DecidableEq

/-- Opening the vision socket: the `onmessage` closure freezes the
`effectiveIncludeTalking` in force at that render. -/
def openSocket (backendConfig : Option BackendConfig) (cfg : VisionConfig) :
    SocketRun :=
  { backendConfig := backendConfig,
    capturedIncludeTalking := effectiveIncludeTalking backendConfig cfg }

/-- One `socket.onmessage` call: `setBackendConfig` when the payload
carries a config echo, then classification of the payload through the
handler's captured closure (not through the freshly re-rendered
`effectiveIncludeTalking`). -/
def onMessage (cfg : VisionConfig) (st : SocketRun)
    (echo : Option BackendConfig) (sample : Option VisionSample) :
    SocketRun × Verdict :=
  let st' :=
    match echo with
    | some c => { st with backendConfig := some c }
    | none => st
  (st', evaluateFocus cfg st.capturedIncludeTalking sample)

/-- `normalizeState(value)` from `App.jsx`: stringify, trim, lower-case. -/
def normalizeState (s : String) : String := strLower (strTrim s)

/-- `isFocusedState(value)`: the focused-equivalent normalized labels. -/
def isFocusedState (s : String) : Bool := s == "focused" || s == "at screen"

/-- Whether one observed label is counted by `computeMostCommonDistractor`:
non-empty after normalization, not focused-equivalent, and not a talking
label while talking inclusion is disabled. -/
def shouldCount (inc : Bool) (s : String) : Bool :=
  !(normalizeState s == "") && !(isFocusedState (normalizeState s)) &&
    (inc || !(strContains (normalizeState s) "talking"))

/-- One entry of the `counts`/`labels` objects: a normalized key, its
running count, and the first original label stored for it. -/
structure TallyEntry where
  key : String
  count : ℕ
  label : String
deriving Repr, DecidableEq

/-- Add one occurrence of normalized key `k` (original label `orig`) to the
insertion-ordered tally, mirroring `counts[k] = (counts[k] || 0) + 1` and
`if (!labels[k]) labels[k] = String(state)`. -/
def bump (k orig : String) : List TallyEntry → List TallyEntry
  | [] => [{ key := k, count := 1, label := orig }]
  | e :: rest =>
    if e.key = k then { key := e.key, count := e.count + 1, label := e.label } :: rest
    else e :: bump k orig rest

/-- The per-label step of the counting loop in `computeMostCommonDistractor`. -/
def tallyStep (inc : Bool) (acc : List TallyEntry) (s : String) : List TallyEntry :=
  if shouldCount inc s then bump (normalizeState s) s acc else acc

/-- The `counts`/`labels` objects built by `computeMostCommonDistractor`,
as an insertion-ordered association list. -/
def tally (inc : Bool) (states : List String) : List TallyEntry :=
  states.foldl (tallyStep inc) []

/-- The best-key selection loop: scan entries in insertion order, replace
the best only on a strictly greater count. -/
def pickBest (entries : List TallyEntry) : String × ℕ × String :=
  entries.foldl
    (fun best e => if e.count > best.2.1 then (e.key, e.count, e.label) else best)
    ("", 0, "")

/-- `computeMostCommonDistractor(states, includeTalking)` from `App.jsx`. -/
def computeMostCommonDistractor (states : List String) (inc : Bool) : String :=
  let best := pickBest (tally inc states)
  if best.1 ≠ "" then best.2.2 else ""

/-- The `recentStatesRef` sliding-window update on an incoming state label:
append, keep the last 60. -/
def pushRecentState (prev : List String) (s : String) : List String :=
  lastN 60 (prev ++ [s])

/-- `alertKeyForState(value)`: the fixed keyword mapping from a state label
to a distraction category. -/
def alertKeyForState (inc : Bool) (value : String) : String :=
  let normalized := normalizeState value
  if normalized == "" then ""
  else if strContains normalized "left" || strContains normalized "right" then "side"
  else if strContains normalized "up" then "up"
  else if strContains normalized "phone" || strContains normalized "book" ||
      strContains normalized "down" then "phone"
  else if strContains normalized "eyes closed" then "up"
  else if strContains normalized "talking" then (if inc then "talking" else "")
  else ""

/-- `characterAssets[choice]?.[key]` for the two characters in `App.jsx`. -/
def characterAsset (choice key : String) : Option String :=
  if choice = "cop" then
    if key = "label" then some "Cop"
    else if key = "filler" then some "/videos/cop/cop-filler.mp4"
    else if key = "side" then some "/videos/cop/Cop-side.mp4"
    else if key = "up" then some "/videos/cop/Cop-up.mp4"
    else if key = "phone" then some "/videos/cop/Cop-phone.mp4"
    else if key = "talking" then some "/videos/cop/Cop-talking.mp4"
    else none
  else if choice = "animegirl" then
    if key = "label" then some "Anime Girl"
    else if key = "filler" then some "/videos/animegirl/animegirl-filler.mp4"
    else if key = "side" then some "/videos/animegirl/animegirl-side.mp4"
    else if key = "up" then some "/videos/animegirl/animegirl-up.mp4"
    else if key = "phone" then some "/videos/animegirl/animegirl-phone.mp4"
    else if key = "talking" then some "/videos/animegirl/animegirl-talking.mp4"
    else none
  else none

/-- The state touched by the alert-debounce `useEffect`: the warning flag,
`distractedStartRef`, the label sources (`distractorReason`, `visionState`),
`alertQueuedRef`, the pending timeout (as its absolute fire time) and the
alert queue. -/
structure AlertState where
  warning : Bool
  lessonStarted : Bool
  episodeStart : Option ℕ
  reason : String
  vstate : String
  queued : Bool
  timer : Option ℕ
  alerts : List String
deriving Repr, DecidableEq

/-- External events the debounce logic reacts to: a change of the smoothed
warning flag, a change of either label source, or plain passage of time
(which lets a due timeout run). -/
inductive AlertEv
  | setWarning (b : Bool)
  | setReason (s : String)
  | setVState (s : String)
  | tick
deriving Repr, DecidableEq

/-- `distractorReason || visionState`: the label the timeout callback
categorizes. -/
def alertCandidate (st : AlertState) : String :=
  if st.reason ≠ "" then st.reason else st.vstate

/-- The body of the debounce `setTimeout` callback. -/
def fireAlertTimer (character : String) (inc : Bool) (st : AlertState) :
    AlertState :=
  let st := { st with timer := none }
  if !st.warning || st.queued then st
  else
    let alertKey := alertKeyForState inc (alertCandidate st)
    if alertKey = "" then st
    else
      match characterAsset character alertKey with
      | none => st
      | some asset => { st with queued := true, alerts := st.alerts ++ [asset] }

/-- One run of the alert-debounce `useEffect` at time `t` (the cleanup of
the previous run has cleared any pending timeout). -/
def alertEffect (t : ℕ) (st : AlertState) : AlertState :=
  let st := { st with timer := none }
  if !st.lessonStarted then st
  else if !st.warning then { st with queued := false }
  else if st.queued then st
  else
    let startTime := st.episodeStart.getD t
    let remaining := 4000 - (t - startTime)
    { st with timer := some (t + remaining) }

/-- One run of the focus-transition `useEffect` at time `t`, restricted to
its effect on `distractedStartRef` (the accumulator/timeline part lives in
`SessionState`). -/
def transitionEffect (t : ℕ) (st : AlertState) : AlertState :=
  if !st.lessonStarted then st
  else if st.warning && st.episodeStart.isNone then
    { st with episodeStart := some t }
  else if !st.warning && st.episodeStart.isSome then
    { st with episodeStart := none }
  else st

/-- Run a pending timeout whose fire time has been reached. -/
def fireIfDue (character : String) (inc : Bool) (t : ℕ) (st : AlertState) :
    AlertState :=
  match st.timer with
  | some ft => if ft ≤ t then fireAlertTimer character inc st else st
  | none => st

/-- Process one timed event: first let a due timeout run, then apply the
event and re-run the effects that depend on it, in source order (the
debounce effect, then the transition effect where it is a dependency). -/
def alertStep (character : String) (inc : Bool) (st : AlertState)
    (ev : ℕ × AlertEv) : AlertState :=
  let st := fireIfDue character inc ev.1 st
  match ev.2 with
  | .tick => st
  | .setWarning b => transitionEffect ev.1 (alertEffect ev.1 { st with warning := b })
  | .setReason s => transitionEffect ev.1 (alertEffect ev.1 { st with reason := s })
  | .setVState s => alertEffect ev.1 { st with vstate := s }

/-- Process a time-ordered list of events. -/
def runAlerts (character : String) (inc : Bool) (st : AlertState)
    (evs : List (ℕ × AlertEv)) : AlertState :=
  evs.foldl (alertStep character inc) st

/-- 1 when a distraction episode is open, else 0. -/
def openBit (st : SessionState) : ℕ :=
  if st.distractedStart.isSome then 1 else 0

/-- Number of completed (closed) distraction episodes recorded so far. -/
def completedEpisodes (st : SessionState) : ℕ :=
  st.distractedCount - openBit st

/-- Number of occurrences in `states` of counted labels normalizing to `k`. -/
def candidateCount (inc : Bool) (states : List String) (k : String) : ℕ :=
  (states.filter (fun s => shouldCount inc s && (normalizeState s == k))).length

/-- The first counted label in `states` normalizing to `k`. -/
def firstCandidate (inc : Bool) (states : List String) (k : String) :
    Option String :=
  states.find? (fun s => shouldCount inc s && (normalizeState s == k))

/-- The first counted label in `states` normalizing to `k` or to `k'`
(which of two keys was seen first). -/
def firstOfPair (inc : Bool) (states : List String) (k k' : String) :
    Option String :=
  states.find? (fun s =>
    shouldCount inc s && (normalizeState s == k || normalizeState s == k'))

/-- A quiescent alert state: lesson running, focus currently fine, no
pending timeout, nothing queued. -/
def calmAlertState : AlertState :=
  { warning := false, lessonStarted := true, episodeStart := none,
    reason := "", vstate := "", queued := false, timer := none, alerts := [] }

/-- A sample pre-session client state, used to exercise `startLesson`. -/
def demoAppState : AppState :=
  { remainingSeconds := 0, sessionSummary := none, sessionTimeline := [],
    focusResults := [], focusLevel := 1, sessionStart := none,
    distractedStart := none, distractedTotal := 0, distractedCount := 0,
    lessonStarted := false }

/-- Events that only touch the label sources or the clock (no change of the
smoothed warning flag). -/
def isLabelEvent : AlertEv → Bool
  | AlertEv.setReason _ => true
  | AlertEv.setVState _ => true
  | AlertEv.tick => true
  | AlertEv.setWarning _ => false

/-- Events that do not end the current distraction episode. -/
def keepsEpisode : AlertEv → Bool
  | AlertEv.setWarning b => b
  | _ => true

/-- A sample observation trace: two short distraction episodes inside a
1.4-second session. -/
def demoObs : List (ℕ × Bool × String) :=
  [(0, true, ""), (600, false, ""), (700, true, ""), (1300, false, "")]

/-- A session state with an open distraction episode. -/
def demoOpenState : SessionState :=
  { distractedStart := some 500, distractedTotal := 0, distractedCount := 1,
    timeline := [{ elapsedSeconds := 1, state := "distracted",
                   label := "distracted" }] }

/-- `evaluateFocus` is exactly the first-match cascade over the eight rule
conditions, in source order. -/
theorem evaluateFocus_eq_cascade (cfg : VisionConfig) (inc : Bool)
    (sample : Option VisionSample) :
    evaluateFocus cfg inc sample =
      (if ruleObjects sample then { focused := false, reason := "distractor" }
       else if ruleStateDistractor sample then
         { focused := false, reason := "distractor" }
       else if ruleTalking inc sample then { focused := false, reason := "audio" }
       else if ruleNoFace sample then { focused := false, reason := "no-face" }
       else if ruleEyesClosed cfg sample then
         { focused := false, reason := "eyes-closed" }
       else if ruleFocusedState sample then { focused := true, reason := "state" }
       else if ruleCentered cfg sample then { focused := true, reason := "centered" }
       else { focused := false, reason := "off-center" }) := rfl

/-- C1: `classify` evaluates its rules in the fixed order — distractor
objects, then "phone"/"book" states, then "talking" (when enabled), then
"no face", then low `left_ear`, then focused-equivalent states, then the
centered-ratio test, else off-center — first match wins; in particular a
sample carrying both a distractor object and state "at screen" classifies
as not focused with reason "distractor". -/
theorem evaluateFocus_rule_order (cfg : VisionConfig) (inc : Bool)
    (sample : Option VisionSample) :
    evaluateFocus cfg inc sample =
      (if ruleObjects sample then { focused := false, reason := "distractor" }
       else if ruleStateDistractor sample then
         { focused := false, reason := "distractor" }
       else if ruleTalking inc sample then { focused := false, reason := "audio" }
       else if ruleNoFace sample then { focused := false, reason := "no-face" }
       else if ruleEyesClosed cfg sample then
         { focused := false, reason := "eyes-closed" }
       else if ruleFocusedState sample then { focused := true, reason := "state" }
       else if ruleCentered cfg sample then { focused := true, reason := "centered" }
       else { focused := false, reason := "off-center" }) ∧
    (ruleObjects sample = true → sampleNormState sample = "at screen" →
      evaluateFocus cfg inc sample = { focused := false, reason := "distractor" }) := by
  refine ⟨evaluateFocus_eq_cascade cfg inc sample, fun h _ => ?_⟩
  rw [evaluateFocus_eq_cascade, h]
  simp

/-- C1 witness: a concrete sample holding a phone and reporting state
"at screen" satisfies both hypotheses and classifies as a distractor. -/
theorem evaluateFocus_rule_order_witness :
    ruleObjects (some { objects := some ["Phone"], state := some "at screen" }) = true ∧
    sampleNormState (some { objects := some ["Phone"], state := some "at screen" }) =
      "at screen" ∧
    evaluateFocus initialVisionConfig true
      (some { objects := some ["Phone"], state := some "at screen" }) =
      { focused := false, reason := "distractor" } :=
  ⟨by decide, by decide,
    (evaluateFocus_rule_order initialVisionConfig true
      (some { objects := some ["Phone"], state := some "at screen" })).2
      (by decide) (by decide)⟩

/-- C7: the code diverges from the claim.  On a socket opened with no echo
and the local default `includeTalking = true`, a message echoing
`include_talking = false` does update `backendConfig` — the re-rendered
`effectiveIncludeTalking` becomes `false` — yet the next "talking" sample
on the same socket is still classified through the handler's captured
closure with the stale local value (reason "audio"), where classification
under the echoed remote value would fall through to "off-center".  The
echo reaches classification only after the socket effect re-runs. -/
theorem classify_stale_closure_bug :
    effectiveIncludeTalking
      (onMessage initialVisionConfig (openSocket none initialVisionConfig)
        (some { include_talking := some false }) none).1.backendConfig
      initialVisionConfig = false ∧
    (onMessage initialVisionConfig
      (onMessage initialVisionConfig (openSocket none initialVisionConfig)
        (some { include_talking := some false }) none).1
      none (some { state := some "talking" })).2 =
      { focused := false, reason := "audio" } ∧
    evaluateFocus initialVisionConfig false (some { state := some "talking" }) =
      { focused := false, reason := "off-center" } := by
  decide

/-- C8: `startLesson` on an empty, non-finite, or non-positive duration
returns without producing a session and changes no state at all. -/
theorem startLesson_rejects_invalid (input : DurationInput) (now : ℕ)
    (st : AppState)
    (h : input = DurationInput.blank ∨ input = DurationInput.nonFinite ∨
      ∃ q, input = DurationInput.numeric q ∧ q ≤ 0) :
    startLesson input now st = st := by
  rcases h with h | h | ⟨q, hq, hle⟩
  · subst h; rfl
  · subst h; rfl
  · subst hq
    simp [startLesson, hle]

/-- C8 witness: a concrete negative duration leaves a concrete state
untouched. -/
theorem startLesson_rejects_invalid_witness :
    startLesson (DurationInput.numeric (-5)) 1000 demoAppState = demoAppState :=
  startLesson_rejects_invalid (DurationInput.numeric (-5)) 1000 demoAppState
    (Or.inr (Or.inr ⟨-5, rfl, by norm_num⟩))

/-- Re-slicing after an append: keeping the last `n` of an already-kept
window equals keeping the last `n` of the full history. -/
theorem lastN_append_last {α : Type} (n : ℕ) (w : List α) (x : α) :
    lastN n (lastN n w ++ [x]) = lastN n (w ++ [x]) := by
  cases n with
  | zero => simp [lastN]
  | succ m =>
    simp only [lastN, List.reverse_append, List.reverse_reverse,
      List.reverse_cons, List.reverse_nil, List.nil_append,
      List.singleton_append, List.take_succ_cons, List.take_take]
    rw [Nat.min_eq_left (Nat.le_succ m)]

theorem length_lastN {α : Type} (n : ℕ) (l : List α) :
    (lastN n l).length = min n l.length := by
  simp [lastN]

theorem mem_lastN {α : Type} {n : ℕ} {l : List α} {x : α}
    (h : x ∈ lastN n l) : x ∈ l := by
  simp only [lastN, List.mem_reverse] at h
  exact List.mem_reverse.mp (List.mem_of_mem_take h)

theorem runSmoother_window (vs : List Bool) :
    (runSmoother vs).window = lastN 60 (vs.map verdictBit) := by
  induction vs using List.reverseRecOn with
  | nil => simp [runSmoother, initSmoother, lastN]
  | append_singleton vs b ih =>
    rw [runSmoother, List.foldl_append, List.foldl_cons, List.foldl_nil]
    rw [show vs.foldl pushFocusResult initSmoother = runSmoother vs from rfl]
    show lastN 60 ((runSmoother vs).window ++ [verdictBit b]) = _
    rw [ih, lastN_append_last, List.map_append]
    rfl

theorem runSmoother_append_last (vs : List Bool) (b : Bool) :
    runSmoother (vs ++ [b]) = pushFocusResult (runSmoother vs) b := by
  rw [runSmoother, List.foldl_append, List.foldl_cons, List.foldl_nil]; rfl

theorem pushFocusResult_level (st : SmootherState) (b : Bool) :
    (pushFocusResult st b).focusLevel =
      ((lastN 60 (st.window ++ [verdictBit b])).sum : ℚ) /
        ((lastN 60 (st.window ++ [verdictBit b])).length : ℚ) := rfl

theorem pushFocusResult_state_iff (st : SmootherState) (b : Bool) :
    ((pushFocusResult st b).currentState = "distracted" ↔
      (pushFocusResult st b).focusLevel < 7/10) := by
  show ((if ((lastN 60 (st.window ++ [verdictBit b])).sum : ℚ) /
        ((lastN 60 (st.window ++ [verdictBit b])).length : ℚ) ≥ 7/10
      then "focused" else "distracted") = "distracted" ↔
      ((lastN 60 (st.window ++ [verdictBit b])).sum : ℚ) /
        ((lastN 60 (st.window ++ [verdictBit b])).length : ℚ) < 7/10)
  by_cases h : ((lastN 60 (st.window ++ [verdictBit b])).sum : ℚ) /
      ((lastN 60 (st.window ++ [verdictBit b])).length : ℚ) ≥ 7/10
  · rw [if_pos h]
    exact iff_of_false (by decide) (not_lt.mpr h)
  · rw [if_neg h]
    exact iff_of_true rfl (lt_of_not_ge h)

/-- C2: the smoother's window holds exactly the last `min(N, 60)` verdicts
(FIFO eviction), `focusLevel` after `N` pushes is their arithmetic mean,
the pre-push state is level 1.0 / focused, and after every push the state
is "distracted" exactly when the level is below 0.7. -/
theorem runSmoother_spec (vs : List Bool) :
    (runSmoother []).focusLevel = 1 ∧
    (runSmoother []).currentState = "focused" ∧
    (runSmoother vs).window = lastN 60 (vs.map verdictBit) ∧
    (vs ≠ [] →
      (runSmoother vs).focusLevel =
        ((lastN 60 (vs.map verdictBit)).sum : ℚ) / ((min vs.length 60 : ℕ) : ℚ) ∧
      ((runSmoother vs).currentState = "distracted" ↔
        (runSmoother vs).focusLevel < 7/10)) := by
  refine ⟨rfl, rfl, runSmoother_window vs, ?_⟩
  induction vs using List.reverseRecOn with
  | nil => intro h; exact absurd rfl h
  | append_singleton vs b ih =>
    intro _
    constructor
    · rw [runSmoother_append_last, pushFocusResult_level, runSmoother_window vs,
        lastN_append_last]
      simp only [List.map_append, List.map_cons, List.map_nil]
      rw [length_lastN]
      congr 2
      simp only [List.length_append, List.length_map, List.length_cons,
        List.length_nil]
      omega
    · rw [runSmoother_append_last]
      exact pushFocusResult_state_iff (runSmoother vs) b

/-- C2 witness: the spec's own example `[true, true, false, false]`
(level 1/2, state distracted since 1/2 < 0.7). -/
theorem runSmoother_spec_witness :
    ([true, true, false, false] : List Bool) ≠ [] ∧
    ((runSmoother [true, true, false, false]).focusLevel =
      ((lastN 60 ([true, true, false, false].map verdictBit)).sum : ℚ) /
        ((min ([true, true, false, false] : List Bool).length 60 : ℕ) : ℚ) ∧
      ((runSmoother [true, true, false, false]).currentState = "distracted" ↔
        (runSmoother [true, true, false, false]).focusLevel < 7/10)) :=
  ⟨by decide, (runSmoother_spec [true, true, false, false]).2.2.2 (by decide)⟩

theorem runSmoother_window_bits (vs : List Bool) :
    ∀ x ∈ (runSmoother vs).window, x = 0 ∨ x = 1 := by
  intro x hx
  rw [runSmoother_window] at hx
  rcases List.mem_map.mp (mem_lastN hx) with ⟨b, _, rfl⟩
  cases b
  · exact Or.inl rfl
  · exact Or.inr rfl

/-- C10: every window element is 0 or 1 and `focusLevel` always lies in
`[0, 1]`: it starts at 1 and every push recomputes it as a mean of 0/1
values over a non-empty window. -/
theorem focusLevel_in_unit_interval (vs : List Bool) :
    (∀ x ∈ (runSmoother vs).window, x = 0 ∨ x = 1) ∧
    0 ≤ (runSmoother vs).focusLevel ∧ (runSmoother vs).focusLevel ≤ 1 := by
  refine ⟨runSmoother_window_bits vs, ?_⟩
  induction vs using List.reverseRecOn with
  | nil => exact ⟨zero_le_one, le_refl 1⟩
  | append_singleton vs b ih =>
    rw [runSmoother_append_last, pushFocusResult_level]
    have hbits : ∀ x ∈ lastN 60 ((runSmoother vs).window ++ [verdictBit b]),
        x ≤ 1 := by
      intro x hx
      rcases List.mem_append.mp (mem_lastN hx) with h | h
      · rcases runSmoother_window_bits vs x h with rfl | rfl
        · exact Nat.zero_le 1
        · exact le_refl 1
      · rcases List.mem_singleton.mp h with rfl
        cases b
        · exact Nat.zero_le 1
        · exact le_refl 1
    have hlen : 0 < (lastN 60 ((runSmoother vs).window ++ [verdictBit b])).length := by
      rw [length_lastN, List.length_append]
      simp
    have hsum : (lastN 60 ((runSmoother vs).window ++ [verdictBit b])).sum ≤
        (lastN 60 ((runSmoother vs).window ++ [verdictBit b])).length := by
      have := List.sum_le_card_nsmul
        (lastN 60 ((runSmoother vs).window ++ [verdictBit b])) 1 hbits
      simpa using this
    constructor
    · exact div_nonneg (by positivity) (by positivity)
    · rw [div_le_one (by exact_mod_cast hlen)]
      exact_mod_cast hsum

theorem focusTransition_invariant (t0 : ℕ) (st : SessionState)
    (ob : ℕ × Bool × String)
    (h1 : st.timeline.length + openBit st = 2 * st.distractedCount)
    (h2 : openBit st ≤ st.distractedCount) :
    (focusTransition t0 st ob).timeline.length + openBit (focusTransition t0 st ob) =
      2 * (focusTransition t0 st ob).distractedCount ∧
    openBit (focusTransition t0 st ob) ≤ (focusTransition t0 st ob).distractedCount := by
  rcases ob with ⟨t, w, reason⟩
  cases hds : st.distractedStart with
  | none =>
    cases w with
    | true =>
      simp [focusTransition, hds, openBit] at h1 h2 ⊢
      omega
    | false =>
      simp [focusTransition, hds, openBit] at h1 h2 ⊢
      omega
  | some s =>
    cases w with
    | true =>
      simp [focusTransition, hds, openBit] at h1 h2 ⊢
      omega
    | false =>
      simp [focusTransition, hds, openBit] at h1 h2 ⊢
      omega

theorem runSession_append (t0 : ℕ) (obs : List (ℕ × Bool × String))
    (ob : ℕ × Bool × String) :
    runSession t0 (obs ++ [ob]) = focusTransition t0 (runSession t0 obs) ob := by
  rw [runSession, List.foldl_append, List.foldl_cons, List.foldl_nil]; rfl

theorem runSession_invariant (t0 : ℕ) (obs : List (ℕ × Bool × String)) :
    (runSession t0 obs).timeline.length + openBit (runSession t0 obs) =
      2 * (runSession t0 obs).distractedCount ∧
    openBit (runSession t0 obs) ≤ (runSession t0 obs).distractedCount := by
  induction obs using List.reverseRecOn with
  | nil => constructor <;> rfl
  | append_singleton obs ob ih =>
    rw [runSession_append]
    exact focusTransition_invariant t0 (runSession t0 obs) ob ih.1 ih.2

/-- C5: for every observation trace, the timeline holds exactly two entries
per completed distraction episode plus one if an episode is still open;
and an update that does not cross the focused/distracted boundary appends
nothing (it leaves the state untouched). -/
theorem timeline_count_spec (t0 : ℕ) (obs : List (ℕ × Bool × String)) :
    (runSession t0 obs).timeline.length =
      2 * completedEpisodes (runSession t0 obs) + openBit (runSession t0 obs) ∧
    (∀ (st : SessionState) (ob : ℕ × Bool × String),
      (ob.2.1 = true → st.distractedStart.isSome = true) →
      (ob.2.1 = false → st.distractedStart = none) →
      focusTransition t0 st ob = st) := by
  constructor
  · have h := runSession_invariant t0 obs
    rw [completedEpisodes]
    omega
  · intro st ob hopen hclosed
    rcases ob with ⟨t, w, reason⟩
    cases w with
    | true =>
      rcases Option.isSome_iff_exists.mp (hopen rfl) with ⟨s, hseq⟩
      simp [focusTransition, hseq]
    | false =>
      have hs := hclosed rfl
      simp [focusTransition, hs]

/-- C5 witness: the two-episode demo trace satisfies the count formula, and
a distracted update while an episode is already open changes nothing. -/
theorem timeline_count_spec_witness :
    (runSession 0 demoObs).timeline.length =
      2 * completedEpisodes (runSession 0 demoObs) + openBit (runSession 0 demoObs) ∧
    focusTransition 0 demoOpenState (1000, true, "phone") = demoOpenState :=
  ⟨(timeline_count_spec 0 demoObs).1,
    (timeline_count_spec 0 demoObs).2 demoOpenState (1000, true, "phone")
      (fun _ => rfl) (fun h => nomatch h)⟩

/-- C3 counterexample: with two 600 ms episodes inside a 1.4 s session,
each episode rounds up to 1 s, so `distractedSeconds = 2` while
`totalSeconds = 1`; the clamped `focusedSeconds = 0` makes the sum 2 ≠ 1. -/
theorem endLesson_sum_counterexample :
    ¬ ((endLesson 0 1400 (runSession 0 demoObs)).focusedSeconds +
        (endLesson 0 1400 (runSession 0 demoObs)).distractedSeconds =
      (endLesson 0 1400 (runSession 0 demoObs)).totalSeconds) := by
  decide

/-- C3 amended: for every completed session,
`focusedSeconds + distractedSeconds = max totalSeconds distractedSeconds`
(in particular the sum equals `totalSeconds` exactly whenever
`distractedSeconds ≤ totalSeconds`), and
`totalSeconds = max 1 (round((end-start)/1000))` is never zero. -/
theorem endLesson_sum (t0 te : ℕ) (st : SessionState) :
    (endLesson t0 te st).focusedSeconds + (endLesson t0 te st).distractedSeconds =
      max (endLesson t0 te st).totalSeconds (endLesson t0 te st).distractedSeconds ∧
    ((endLesson t0 te st).distractedSeconds ≤ (endLesson t0 te st).totalSeconds →
      (endLesson t0 te st).focusedSeconds + (endLesson t0 te st).distractedSeconds =
        (endLesson t0 te st).totalSeconds) ∧
    1 ≤ (endLesson t0 te st).totalSeconds := by
  cases hds : st.distractedStart with
  | none =>
    simp only [endLesson, hds]
    refine ⟨?_, ?_, ?_⟩ <;> omega
  | some s =>
    simp only [endLesson, hds]
    refine ⟨?_, ?_, ?_⟩ <;> omega

/-- C3 amended witness: a fully focused 10-second session balances exactly. -/
theorem endLesson_sum_witness :
    (endLesson 0 10000 initSessionState).distractedSeconds ≤
      (endLesson 0 10000 initSessionState).totalSeconds ∧
    (endLesson 0 10000 initSessionState).focusedSeconds +
        (endLesson 0 10000 initSessionState).distractedSeconds =
      (endLesson 0 10000 initSessionState).totalSeconds :=
  ⟨by decide, (endLesson_sum 0 10000 initSessionState).2.1 (by decide)⟩

/-- C9: the classifier is total — for any sample, with any subset of fields
absent or non-numeric (including an entirely absent payload), it yields a
well-formed verdict; a missing field merely disqualifies the rule that
needs it (no "eyes-closed" without a numeric `left_ear`, no "centered"
without both ratios), and unknown state strings match no state rule. -/
theorem evaluateFocus_total_robust (cfg : VisionConfig) (inc : Bool)
    (sample : Option VisionSample) :
    (evaluateFocus cfg inc sample).reason ∈
      (["distractor", "audio", "no-face", "eyes-closed", "state", "centered",
        "off-center"] : List String) ∧
    evaluateFocus cfg inc none = { focused := false, reason := "off-center" } ∧
    ((sample.getD {}).left_ear = none →
      (evaluateFocus cfg inc sample).reason ≠ "eyes-closed") ∧
    ((sample.getD {}).h_ratio = none ∨ (sample.getD {}).v_ratio = none →
      (evaluateFocus cfg inc sample).reason ≠ "centered") ∧
    (∀ (s : VisionSample) (str : String),
      strContains (strLower str) "phone" = false →
      strContains (strLower str) "book" = false →
      strContains (strLower str) "talking" = false →
      strContains (strLower str) "no face" = false →
      strLower str ≠ "focused" → strLower str ≠ "at screen" →
      evaluateFocus cfg inc (some { s with state := some str }) =
        evaluateFocus cfg inc (some { s with state := none })) := by
  refine ⟨?_, ?_, ?_, ?_, ?_⟩
  · rw [evaluateFocus_eq_cascade]
    split_ifs <;> simp
  · rw [evaluateFocus_eq_cascade]
    rw [show ruleObjects none = false from rfl,
      show ruleStateDistractor none = false from rfl,
      show ruleTalking inc none = (inc && false) from rfl,
      show ruleNoFace none = false from rfl,
      show ruleEyesClosed cfg none = false from rfl,
      show ruleFocusedState none = false from rfl,
      show ruleCentered cfg none = false from rfl]
    simp
  · intro h
    rw [evaluateFocus_eq_cascade]
    split_ifs with h1 h2 h3 h4 h5 h6 h7
    · decide
    · decide
    · decide
    · decide
    · exact absurd h5 (by simp [ruleEyesClosed, h])
    · decide
    · decide
    · decide
  · intro h
    rw [evaluateFocus_eq_cascade]
    split_ifs with h1 h2 h3 h4 h5 h6 h7
    · decide
    · decide
    · decide
    · decide
    · decide
    · decide
    · rcases h with h | h
      · exact absurd h7 (by simp [ruleCentered, h])
      · exact absurd h7 (by simp [ruleCentered, h])
    · decide
  · intro s str hp hb ht hn hf ha
    rw [evaluateFocus_eq_cascade, evaluateFocus_eq_cascade]
    have e1 : ruleObjects (some { s with state := some str }) =
        ruleObjects (some { s with state := none }) := rfl
    have e5 : ruleEyesClosed cfg (some { s with state := some str }) =
        ruleEyesClosed cfg (some { s with state := none }) := rfl
    have e7 : ruleCentered cfg (some { s with state := some str }) =
        ruleCentered cfg (some { s with state := none }) := rfl
    have f2 : ruleStateDistractor (some { s with state := some str }) = false := by
      simp only [ruleStateDistractor,
        show sampleNormState (some { s with state := some str }) = strLower str
          from rfl, hp, hb, Bool.or_false]
    have f2' : ruleStateDistractor (some { s with state := none }) = false := rfl
    have f3 : ruleTalking inc (some { s with state := some str }) = false := by
      simp only [ruleTalking,
        show sampleNormState (some { s with state := some str }) = strLower str
          from rfl, ht, Bool.and_false]
    have f3' : ruleTalking inc (some { s with state := none }) = false := by
      simp only [ruleTalking,
        show sampleNormState (some { s with state := none }) = "" from rfl,
        show strContains "" "talking" = false from rfl, Bool.and_false]
    have f4 : ruleNoFace (some { s with state := some str }) = false := by
      simp only [ruleNoFace,
        show sampleNormState (some { s with state := some str }) = strLower str
          from rfl, hn]
    have f4' : ruleNoFace (some { s with state := none }) = false := rfl
    have f6 : ruleFocusedState (some { s with state := some str }) = false := by
      simp only [ruleFocusedState,
        show sampleNormState (some { s with state := some str }) = strLower str
          from rfl, beq_eq_false_iff_ne.mpr hf, beq_eq_false_iff_ne.mpr ha,
        Bool.or_false]
    have f6' : ruleFocusedState (some { s with state := none }) = false := rfl
    rw [f2, f2', f3, f3', f4, f4', f6, f6', e1, e5, e7]

/-- C9 witness: a sample with a non-numeric `left_ear`, missing ratios and
the unknown state "pondering" falls through to off-center, and the unknown
state behaves exactly like an absent one. -/
theorem evaluateFocus_total_robust_witness :
    (evaluateFocus initialVisionConfig true
        (some { state := some "pondering" })).reason ≠ "eyes-closed" ∧
    (evaluateFocus initialVisionConfig true
        (some { state := some "pondering" })).reason ≠ "centered" ∧
    evaluateFocus initialVisionConfig true (some { state := some "pondering" }) =
      evaluateFocus initialVisionConfig true
        (some { (({} : VisionSample)) with state := none }) :=
  ⟨(evaluateFocus_total_robust initialVisionConfig true
      (some { state := some "pondering" })).2.2.1 rfl,
    (evaluateFocus_total_robust initialVisionConfig true
      (some { state := some "pondering" })).2.2.2.1 (Or.inl rfl),
    (evaluateFocus_total_robust initialVisionConfig true
      (some { state := some "pondering" })).2.2.2.2 {} "pondering"
      (by decide) (by decide) (by decide) (by decide) (by decide) (by decide)⟩

theorem characterAsset_empty (c : String) : characterAsset c "" = none := by
  unfold characterAsset
  split_ifs <;> simp_all

theorem runAlerts_cons (c : String) (inc : Bool) (st : AlertState)
    (ev : ℕ × AlertEv) (evs : List (ℕ × AlertEv)) :
    runAlerts c inc st (ev :: evs) = runAlerts c inc (alertStep c inc st ev) evs := rfl

theorem runAlerts_append (c : String) (inc : Bool) (st : AlertState)
    (l1 l2 : List (ℕ × AlertEv)) :
    runAlerts c inc st (l1 ++ l2) = runAlerts c inc (runAlerts c inc st l1) l2 :=
  List.foldl_append _ _ _ _

theorem alertStep_open (c : String) (inc : Bool) (st0 : AlertState) (t1 : ℕ)
    (hl : st0.lessonStarted = true) (hw : st0.warning = false)
    (hq : st0.queued = false) (ht : st0.timer = none)
    (he : st0.episodeStart = none) :
    alertStep c inc st0 (t1, AlertEv.setWarning true) =
      { st0 with warning := true, episodeStart := some t1,
                 timer := some (t1 + 4000) } := by
  rcases st0 with ⟨w, ls, es, rs, vs, q, tm, al⟩
  simp only at hl hw hq ht he
  subst hl hw hq ht he
  simp [alertStep, fireIfDue, alertEffect, transitionEffect]

theorem alertStep_mid (c : String) (inc : Bool) (st : AlertState) (t1 t : ℕ)
    (e : AlertEv)
    (hl : st.lessonStarted = true) (hw : st.warning = true)
    (hq : st.queued = false) (ht : st.timer = some (t1 + 4000))
    (he : st.episodeStart = some t1)
    (hev : isLabelEvent e = true) (h1 : t1 ≤ t) (h2 : t < t1 + 4000) :
    (alertStep c inc st (t, e)).lessonStarted = true ∧
    (alertStep c inc st (t, e)).warning = true ∧
    (alertStep c inc st (t, e)).queued = false ∧
    (alertStep c inc st (t, e)).timer = some (t1 + 4000) ∧
    (alertStep c inc st (t, e)).episodeStart = some t1 ∧
    (alertStep c inc st (t, e)).alerts = st.alerts := by
  rcases st with ⟨w, ls, es, rs, vs, q, tm, al⟩
  simp only at hl hw hq ht he
  subst hl hw hq ht he
  cases e with
  | setWarning b => simp [isLabelEvent] at hev
  | setReason s =>
    have hnotdue : ¬ (t1 + 4000 ≤ t) := by omega
    simp [alertStep, fireIfDue, hnotdue, alertEffect, transitionEffect]
    omega
  | setVState s =>
    have hnotdue : ¬ (t1 + 4000 ≤ t) := by omega
    simp [alertStep, fireIfDue, hnotdue, alertEffect, transitionEffect]
    omega
  | tick =>
    have hnotdue : ¬ (t1 + 4000 ≤ t) := by omega
    simp [alertStep, fireIfDue, hnotdue]

theorem runAlerts_mid (c : String) (inc : Bool) (t1 : ℕ)
    (mids : List (ℕ × AlertEv)) :
    ∀ (st : AlertState),
    st.lessonStarted = true → st.warning = true → st.queued = false →
    st.timer = some (t1 + 4000) → st.episodeStart = some t1 →
    (∀ e ∈ mids, isLabelEvent e.2 = true ∧ t1 ≤ e.1 ∧ e.1 < t1 + 4000) →
    (runAlerts c inc st mids).lessonStarted = true ∧
    (runAlerts c inc st mids).warning = true ∧
    (runAlerts c inc st mids).queued = false ∧
    (runAlerts c inc st mids).timer = some (t1 + 4000) ∧
    (runAlerts c inc st mids).episodeStart = some t1 ∧
    (runAlerts c inc st mids).alerts = st.alerts := by
  induction mids with
  | nil => intro st h1 h2 h3 h4 h5 _; exact ⟨h1, h2, h3, h4, h5, rfl⟩
  | cons m rest ih =>
    intro st h1 h2 h3 h4 h5 hm
    have hmm := hm m (List.mem_cons_self m rest)
    have step := alertStep_mid c inc st t1 m.1 m.2 h1 h2 h3 h4 h5
      hmm.1 hmm.2.1 hmm.2.2
    rw [runAlerts_cons]
    have hrest : ∀ e ∈ rest, isLabelEvent e.2 = true ∧ t1 ≤ e.1 ∧ e.1 < t1 + 4000 :=
      fun e he => hm e (List.mem_cons_of_mem m he)
    have := ih (alertStep c inc st (m.1, m.2)) step.1 step.2.1 step.2.2.1
      step.2.2.2.1 step.2.2.2.2.1 hrest
    refine ⟨this.1, this.2.1, this.2.2.1, this.2.2.2.1, this.2.2.2.2.1, ?_⟩
    rw [this.2.2.2.2.2]
    exact step.2.2.2.2.2

theorem alertStep_close (c : String) (inc : Bool) (st : AlertState) (t1 t2 : ℕ)
    (hl : st.lessonStarted = true) (hw : st.warning = true)
    (ht : st.timer = some (t1 + 4000)) (h2 : t2 < t1 + 4000) :
    (alertStep c inc st (t2, AlertEv.setWarning false)).alerts = st.alerts := by
  rcases st with ⟨w, ls, es, rs, vs, q, tm, al⟩
  simp only at hl hw ht
  subst hl hw ht
  have hnotdue : ¬ (t1 + 4000 ≤ t2) := by omega
  cases es <;> simp [alertStep, fireIfDue, hnotdue, alertEffect, transitionEffect]

theorem fireAlertTimer_queues (c : String) (inc : Bool) (st : AlertState)
    (a : String) (hw : st.warning = true) (hq : st.queued = false)
    (ha : characterAsset c (alertKeyForState inc (alertCandidate st)) = some a) :
    fireAlertTimer c inc st =
      { st with timer := none, queued := true, alerts := st.alerts ++ [a] } := by
  have hkey : alertKeyForState inc (alertCandidate st) ≠ "" := by
    intro hempty
    rw [hempty, characterAsset_empty] at ha
    exact Option.noConfusion ha
  have h1 : ({ st with timer := none } : AlertState).warning = true := hw
  have h2 : ({ st with timer := none } : AlertState).queued = false := hq
  have h3 : alertCandidate { st with timer := none } = alertCandidate st := rfl
  simp [fireAlertTimer, h1, h2, h3, hkey, ha]
  exact ⟨hw, hq⟩

theorem alertStep_fire (c : String) (inc : Bool) (st : AlertState)
    (t1 tf : ℕ) (a : String)
    (hl : st.lessonStarted = true) (hw : st.warning = true)
    (hq : st.queued = false) (ht : st.timer = some (t1 + 4000))
    (htf : t1 + 4000 ≤ tf)
    (ha : characterAsset c (alertKeyForState inc (alertCandidate st)) = some a) :
    (alertStep c inc st (tf, AlertEv.tick)).lessonStarted = true ∧
    (alertStep c inc st (tf, AlertEv.tick)).warning = true ∧
    (alertStep c inc st (tf, AlertEv.tick)).queued = true ∧
    (alertStep c inc st (tf, AlertEv.tick)).timer = none ∧
    (alertStep c inc st (tf, AlertEv.tick)).alerts = st.alerts ++ [a] := by
  have hstep : alertStep c inc st (tf, AlertEv.tick) = fireAlertTimer c inc st := by
    simp [alertStep, fireIfDue, ht, htf]
  rw [hstep, fireAlertTimer_queues c inc st a hw hq ha]
  exact ⟨hl, hw, rfl, rfl, rfl⟩

theorem alertStep_after_queue (c : String) (inc : Bool) (st : AlertState)
    (t : ℕ) (e : AlertEv)
    (hl : st.lessonStarted = true) (hw : st.warning = true)
    (hq : st.queued = true) (ht : st.timer = none)
    (hev : keepsEpisode e = true) :
    (alertStep c inc st (t, e)).lessonStarted = true ∧
    (alertStep c inc st (t, e)).warning = true ∧
    (alertStep c inc st (t, e)).queued = true ∧
    (alertStep c inc st (t, e)).timer = none ∧
    (alertStep c inc st (t, e)).alerts = st.alerts := by
  rcases st with ⟨w, ls, es, rs, vs, q, tm, al⟩
  simp only at hl hw hq ht
  subst hl hw hq ht
  cases e with
  | setWarning b =>
    simp only [keepsEpisode] at hev
    subst hev
    cases es <;>
      simp [alertStep, fireIfDue, alertEffect, transitionEffect]
  | setReason s =>
    cases es <;> simp [alertStep, fireIfDue, alertEffect, transitionEffect]
  | setVState s => simp [alertStep, fireIfDue, alertEffect, transitionEffect]
  | tick => simp [alertStep, fireIfDue]

theorem runAlerts_after_queue (c : String) (inc : Bool)
    (rest : List (ℕ × AlertEv)) :
    ∀ (st : AlertState),
    st.lessonStarted = true → st.warning = true → st.queued = true →
    st.timer = none →
    (∀ e ∈ rest, keepsEpisode e.2 = true) →
    (runAlerts c inc st rest).alerts = st.alerts := by
  induction rest with
  | nil => intro st _ _ _ _ _; rfl
  | cons m tail ih =>
    intro st h1 h2 h3 h4 hm
    have step := alertStep_after_queue c inc st m.1 m.2 h1 h2 h3 h4
      (hm m (List.mem_cons_self m tail))
    rw [runAlerts_cons]
    have := ih (alertStep c inc st (m.1, m.2)) step.1 step.2.1 step.2.2.1
      step.2.2.2.1 (fun e he => hm e (List.mem_cons_of_mem m he))
    rw [this]
    exact step.2.2.2.2

theorem alert_debounce_part2 (c : String) (inc : Bool)
    (st0 : AlertState) (t1 t2 : ℕ) (mids : List (ℕ × AlertEv))
    (hl : st0.lessonStarted = true) (hw : st0.warning = false)
    (hq : st0.queued = false) (ht : st0.timer = none)
    (he : st0.episodeStart = none)
    (hmids : ∀ e ∈ mids, isLabelEvent e.2 = true ∧ t1 ≤ e.1 ∧ e.1 < t1 + 4000)
    (h2 : t2 < t1 + 4000) :
    (runAlerts c inc st0 ((t1, AlertEv.setWarning true) :: mids ++
      [(t2, AlertEv.setWarning false)])).alerts = st0.alerts := by
  have hsingle : ∀ (s : AlertState) (x : ℕ × AlertEv),
      runAlerts c inc s [x] = alertStep c inc s x := fun _ _ => rfl
  rw [runAlerts_append, runAlerts_cons c inc st0,
    alertStep_open c inc st0 t1 hl hw hq ht he, hsingle]
  have hmid := runAlerts_mid c inc t1 mids
    { st0 with warning := true, episodeStart := some t1,
               timer := some (t1 + 4000) } hl rfl hq rfl rfl hmids
  rw [alertStep_close c inc _ t1 t2 hmid.1 hmid.2.1 hmid.2.2.2.1 h2,
    hmid.2.2.2.2.2]

theorem alertEffect_arm (t s0 : ℕ) (st : AlertState)
    (hl : st.lessonStarted = true) (hw : st.warning = true)
    (hq : st.queued = false) (he : st.episodeStart = some s0) :
    alertEffect t st = { st with timer := some (t + (4000 - (t - s0))) } := by
  simp [alertEffect, hl, hw, hq, he]

theorem alert_debounce_part1 (t s0 : ℕ) (st : AlertState)
    (hl : st.lessonStarted = true) (hw : st.warning = true)
    (hq : st.queued = false) (he : st.episodeStart = some s0)
    (hts : s0 ≤ t) :
    (alertEffect t st).timer =
      some (t + Int.toNat (4000 - ((t : ℤ) - (s0 : ℤ)))) := by
  rw [alertEffect_arm t s0 st hl hw hq he]
  simp only [Option.some.injEq]
  omega

theorem alert_debounce_part3 (c : String) (inc : Bool)
    (st0 : AlertState) (t1 tf : ℕ) (mids rest : List (ℕ × AlertEv)) (a : String)
    (hl : st0.lessonStarted = true) (hw : st0.warning = false)
    (hq : st0.queued = false) (ht : st0.timer = none)
    (he : st0.episodeStart = none)
    (hmids : ∀ e ∈ mids, isLabelEvent e.2 = true ∧ t1 ≤ e.1 ∧ e.1 < t1 + 4000)
    (htf : t1 + 4000 ≤ tf)
    (ha : characterAsset c (alertKeyForState inc (alertCandidate
      (runAlerts c inc st0 ((t1, AlertEv.setWarning true) :: mids)))) = some a)
    (hrest : ∀ e ∈ rest, keepsEpisode e.2 = true) :
    (runAlerts c inc st0 (((t1, AlertEv.setWarning true) :: mids) ++
      (tf, AlertEv.tick) :: rest)).alerts = st0.alerts ++ [a] := by
  have hopen := alertStep_open c inc st0 t1 hl hw hq ht he
  have ha' : characterAsset c (alertKeyForState inc (alertCandidate (runAlerts c inc { st0 with warning := true, episodeStart := some t1, timer := some (t1 + 4000) } mids))) = some a := by
    rw [runAlerts_cons c inc st0, hopen] at ha
    exact ha
  rw [runAlerts_append, runAlerts_cons c inc st0, hopen, runAlerts_cons]
  have hmid := runAlerts_mid c inc t1 mids { st0 with warning := true, episodeStart := some t1, timer := some (t1 + 4000) } hl rfl hq rfl rfl hmids
  have hfire := alertStep_fire c inc _ t1 tf a
    hmid.1 hmid.2.1 hmid.2.2.1 hmid.2.2.2.1 htf ha'
  have hafter := runAlerts_after_queue c inc rest _
    hfire.1 hfire.2.1 hfire.2.2.1 hfire.2.2.2.1 hrest
  rw [hafter, hfire.2.2.2.2, hmid.2.2.2.2.2]

/-- C4: (i) the debounce timer armed during an episode waits `D - elapsed`
milliseconds, clamped at 0, anchored to the episode start; (ii) if focus
recovers before `D = 4000` ms has elapsed, zero alerts are queued for that
episode, whatever label fluctuation happened during the wait; (iii) if the
episode persists past `D` and the category current at fire time resolves to
an asset of the active character, exactly one alert is queued for the
episode — label and warning events after the queueing add nothing. -/
theorem alert_debounce_spec (c : String) (inc : Bool) :
    (∀ (t s0 : ℕ) (st : AlertState), st.lessonStarted = true →
      st.warning = true → st.queued = false → st.episodeStart = some s0 →
      s0 ≤ t →
      (alertEffect t st).timer =
        some (t + Int.toNat (4000 - ((t : ℤ) - (s0 : ℤ))))) ∧
    (∀ (st0 : AlertState) (t1 t2 : ℕ) (mids : List (ℕ × AlertEv)),
      st0.lessonStarted = true → st0.warning = false → st0.queued = false →
      st0.timer = none → st0.episodeStart = none →
      (∀ e ∈ mids, isLabelEvent e.2 = true ∧ t1 ≤ e.1 ∧ e.1 < t1 + 4000) →
      t2 < t1 + 4000 →
      (runAlerts c inc st0 ((t1, AlertEv.setWarning true) :: mids ++
        [(t2, AlertEv.setWarning false)])).alerts = st0.alerts) ∧
    (∀ (st0 : AlertState) (t1 tf : ℕ) (mids rest : List (ℕ × AlertEv))
        (a : String),
      st0.lessonStarted = true → st0.warning = false → st0.queued = false →
      st0.timer = none → st0.episodeStart = none →
      (∀ e ∈ mids, isLabelEvent e.2 = true ∧ t1 ≤ e.1 ∧ e.1 < t1 + 4000) →
      t1 + 4000 ≤ tf →
      characterAsset c (alertKeyForState inc (alertCandidate
        (runAlerts c inc st0 ((t1, AlertEv.setWarning true) :: mids)))) = some a →
      (∀ e ∈ rest, keepsEpisode e.2 = true) →
      (runAlerts c inc st0 (((t1, AlertEv.setWarning true) :: mids) ++
        (tf, AlertEv.tick) :: rest)).alerts = st0.alerts ++ [a]) :=
  ⟨fun t s0 st hl hw hq he hts =>
      alert_debounce_part1 t s0 st hl hw hq he hts,
    fun st0 t1 t2 mids hl hw hq ht he hm h2 =>
      alert_debounce_part2 c inc st0 t1 t2 mids hl hw hq ht he hm h2,
    fun st0 t1 tf mids rest a hl hw hq ht he hm htf ha hr =>
      alert_debounce_part3 c inc st0 t1 tf mids rest a hl hw hq ht he hm htf
        ha hr⟩

/-- C4 witness: a concrete episode — opened at 0 ms with a label change at
500 ms — produces no alert when focus recovers at 3000 ms, produces exactly
the cop side-glance alert when it persists to 4000 ms, and a timer armed at
1000 ms into the episode waits the remaining 3000 ms. -/
theorem alert_debounce_spec_witness :
    (alertEffect 1000 { calmAlertState with warning := true, episodeStart := some 0 }).timer =
      some (1000 + Int.toNat (4000 - ((1000 : ℤ) - (0 : ℤ)))) ∧
    (runAlerts "cop" true calmAlertState ((0, AlertEv.setWarning true) ::
      [(500, AlertEv.setReason "looking left")] ++
      [(3000, AlertEv.setWarning false)])).alerts = calmAlertState.alerts ∧
    (runAlerts "cop" true calmAlertState (((0, AlertEv.setWarning true) ::
      [(500, AlertEv.setReason "looking left")]) ++
      (4000, AlertEv.tick) :: [])).alerts =
      calmAlertState.alerts ++ ["/videos/cop/Cop-side.mp4"] :=
  ⟨(alert_debounce_spec "cop" true).1 1000 0
      { calmAlertState with warning := true, episodeStart := some 0 }
      rfl rfl rfl rfl (by decide),
    (alert_debounce_spec "cop" true).2.1 calmAlertState 0 3000
      [(500, AlertEv.setReason "looking left")] rfl rfl rfl rfl rfl
      (by decide) (by decide),
    (alert_debounce_spec "cop" true).2.2 calmAlertState 0 4000
      [(500, AlertEv.setReason "looking left")] [] "/videos/cop/Cop-side.mp4"
      rfl rfl rfl rfl rfl (by decide) (by decide) (by decide)
      (by decide)⟩

theorem tally_append (inc : Bool) (states : List String) (s : String) :
    tally inc (states ++ [s]) = tallyStep inc (tally inc states) s := by
  rw [tally, List.foldl_append, List.foldl_cons, List.foldl_nil]; rfl

theorem bump_of_not_mem (k orig : String) (T : List TallyEntry)
    (h : k ∉ T.map TallyEntry.key) :
    bump k orig T = T ++ [{ key := k, count := 1, label := orig }] := by
  induction T with
  | nil => rfl
  | cons e T ih =>
    simp only [List.map_cons, List.mem_cons] at h
    push_neg at h
    rw [bump, if_neg (fun he => h.1 he.symm), ih h.2]
    rfl

theorem map_id_of_key_not_mem (k : String) (T : List TallyEntry)
    (h : k ∉ T.map TallyEntry.key) :
    T.map (fun e => if e.key = k then
      { key := e.key, count := e.count + 1, label := e.label } else e) = T := by
  induction T with
  | nil => rfl
  | cons e T ih =>
    simp only [List.map_cons, List.mem_cons] at h
    push_neg at h
    rw [List.map_cons, if_neg (fun he => h.1 he.symm), ih h.2]

theorem bump_of_mem (k orig : String) (T : List TallyEntry)
    (hnd : (T.map TallyEntry.key).Nodup) (h : k ∈ T.map TallyEntry.key) :
    bump k orig T = T.map (fun e => if e.key = k then
      { key := e.key, count := e.count + 1, label := e.label } else e) := by
  induction T with
  | nil => simp at h
  | cons e T ih =>
    simp only [List.map_cons, List.nodup_cons] at hnd
    by_cases hk : e.key = k
    · rw [bump, if_pos hk, List.map_cons, if_pos hk]
      congr 1
      rw [map_id_of_key_not_mem k T (hk ▸ hnd.1)]
    · rw [bump, if_neg hk, List.map_cons, if_neg hk]
      congr 1
      apply ih hnd.2
      rw [List.map_cons] at h
      rcases List.mem_cons.mp h with h1 | h1
      · exact absurd h1.symm hk
      · exact h1

theorem keys_bump (k orig : String) (T : List TallyEntry) :
    (bump k orig T).map TallyEntry.key =
      if k ∈ T.map TallyEntry.key then T.map TallyEntry.key
      else T.map TallyEntry.key ++ [k] := by
  induction T with
  | nil => simp [bump]
  | cons e T ih =>
    by_cases hk : e.key = k
    · rw [bump, if_pos hk]
      simp [hk]
    · have hk' : ¬ (k = e.key) := fun h => hk h.symm
      rw [bump, if_neg hk]
      simp only [List.map_cons, ih, List.mem_cons]
      by_cases hm : k ∈ T.map TallyEntry.key
      · simp [hm, hk']
      · simp [hm, hk']

theorem tally_keys_nodup (inc : Bool) (states : List String) :
    ((tally inc states).map TallyEntry.key).Nodup := by
  induction states using List.reverseRecOn with
  | nil => simp [tally]
  | append_singleton states s ih =>
    rw [tally_append, tallyStep]
    by_cases hc : shouldCount inc s
    · rw [if_pos hc, keys_bump]
      by_cases hm : normalizeState s ∈ (tally inc states).map TallyEntry.key
      · rw [if_pos hm]; exact ih
      · rw [if_neg hm]
        simp [List.nodup_append, ih, hm]
    · rw [if_neg hc]; exact ih

theorem candidateCount_append (inc : Bool) (states : List String) (s k : String) :
    candidateCount inc (states ++ [s]) k =
      candidateCount inc states k +
        (if shouldCount inc s && (normalizeState s == k) then 1 else 0) := by
  rw [candidateCount, candidateCount, List.filter_append, List.length_append]
  congr 1
  by_cases h : shouldCount inc s && (normalizeState s == k) <;> simp [h]

theorem candidateCount_pos_iff (inc : Bool) (states : List String) (k : String) :
    0 < candidateCount inc states k ↔
      ∃ x ∈ states, (shouldCount inc x && (normalizeState x == k)) = true := by
  rw [candidateCount, List.length_pos_iff_exists_mem]
  constructor
  · rintro ⟨a, ha⟩
    rw [List.mem_filter] at ha
    exact ⟨a, ha.1, ha.2⟩
  · rintro ⟨a, ha, hp⟩
    exact ⟨a, List.mem_filter.mpr ⟨ha, hp⟩⟩

theorem shouldCount_norm_ne (inc : Bool) (s : String)
    (h : shouldCount inc s = true) : normalizeState s ≠ "" := by
  rw [shouldCount] at h
  intro he
  rw [he] at h
  simp at h

theorem mem_tally_keys_iff (inc : Bool) (states : List String) (k : String) :
    k ∈ (tally inc states).map TallyEntry.key ↔
      0 < candidateCount inc states k := by
  induction states using List.reverseRecOn with
  | nil => simp [tally, candidateCount]
  | append_singleton states s ih =>
    rw [tally_append, tallyStep, candidateCount_append]
    by_cases hc : shouldCount inc s
    · rw [if_pos hc, keys_bump]
      by_cases hk : normalizeState s = k
      · subst hk
        by_cases hm : normalizeState s ∈ (tally inc states).map TallyEntry.key
        · rw [if_pos hm]
          simp [hm, hc]
        · rw [if_neg hm]
          simp [hc]
      · have hkb : (normalizeState s == k) = false := by
          exact beq_eq_false_iff_ne.mpr hk
        by_cases hm : normalizeState s ∈ (tally inc states).map TallyEntry.key
        · rw [if_pos hm]
          simp [hkb, ih]
        · rw [if_neg hm]
          simp [hkb, List.mem_append, ih, hk]
          exact fun h => absurd h.symm hk
    · rw [if_neg hc]
      have hcb : shouldCount inc s = false := by
        exact Bool.not_eq_true _ |>.mp hc
      simp [hcb, ih]

theorem tally_count (inc : Bool) (states : List String) :
    ∀ e ∈ tally inc states, e.count = candidateCount inc states e.key := by
  induction states using List.reverseRecOn with
  | nil => intro e he; simp [tally] at he
  | append_singleton states s ih =>
    intro e he
    rw [tally_append, tallyStep] at he
    rw [candidateCount_append]
    by_cases hc : shouldCount inc s
    · rw [if_pos hc] at he
      by_cases hm : normalizeState s ∈ (tally inc states).map TallyEntry.key
      · rw [bump_of_mem _ _ _ (tally_keys_nodup inc states) hm] at he
        rcases List.mem_map.mp he with ⟨e0, he0, rfl⟩
        by_cases hk : e0.key = normalizeState s
        · rw [if_pos hk]
          simp only []
          rw [ih e0 he0, hk]
          have : (normalizeState s == normalizeState s) = true := beq_self_eq_true _
          simp [hc, this]
        · rw [if_neg hk]
          rw [ih e0 he0]
          have : (normalizeState s == e0.key) = false :=
            beq_eq_false_iff_ne.mpr (fun h => hk h.symm)
          simp [this]
      · rw [bump_of_not_mem _ _ _ hm] at he
        rcases List.mem_append.mp he with he | he
        · rw [ih e he]
          have : (normalizeState s == e.key) = false := by
            refine beq_eq_false_iff_ne.mpr (fun h => hm ?_)
            rw [h]
            exact List.mem_map_of_mem TallyEntry.key he
          simp [this]
        · rcases List.mem_singleton.mp he with rfl
          have h0 : candidateCount inc states (normalizeState s) = 0 := by
            by_contra hpos
            exact hm ((mem_tally_keys_iff inc states _).mpr
              (Nat.pos_of_ne_zero hpos))
          simp [h0, hc, beq_self_eq_true]
    · rw [if_neg hc] at he
      rw [ih e he]
      have hcb : shouldCount inc s = false := Bool.not_eq_true _ |>.mp hc
      simp [hcb]

theorem candidateCount_zero_all (inc : Bool) (states : List String) (k : String)
    (h : candidateCount inc states k = 0) :
    ∀ x ∈ states, (shouldCount inc x && (normalizeState x == k)) = false := by
  intro x hx
  by_contra hb
  have : 0 < candidateCount inc states k :=
    (candidateCount_pos_iff inc states k).mpr
      ⟨x, hx, by revert hb; cases shouldCount inc x && (normalizeState x == k) <;> simp⟩
  omega

theorem find?_congr_local {α : Type} (p q : α → Bool) (l : List α)
    (h : ∀ x ∈ l, p x = q x) : l.find? p = l.find? q := by
  induction l with
  | nil => rfl
  | cons a l ih =>
    rw [List.find?_cons, List.find?_cons, h a (List.mem_cons_self a l)]
    cases q a
    · exact ih (fun x hx => h x (List.mem_cons_of_mem a hx))
    · rfl

theorem firstCandidate_append (inc : Bool) (states : List String) (s k : String) :
    firstCandidate inc (states ++ [s]) k =
      (firstCandidate inc states k).or (firstCandidate inc [s] k) := by
  rw [firstCandidate, firstCandidate, firstCandidate, List.find?_append]

theorem tally_label (inc : Bool) (states : List String) :
    ∀ e ∈ tally inc states, firstCandidate inc states e.key = some e.label := by
  induction states using List.reverseRecOn with
  | nil => intro e he; simp [tally] at he
  | append_singleton states s ih =>
    intro e he
    rw [tally_append, tallyStep] at he
    rw [firstCandidate_append]
    by_cases hc : shouldCount inc s
    · rw [if_pos hc] at he
      by_cases hm : normalizeState s ∈ (tally inc states).map TallyEntry.key
      · rw [bump_of_mem _ _ _ (tally_keys_nodup inc states) hm] at he
        rcases List.mem_map.mp he with ⟨e0, he0, rfl⟩
        by_cases hk : e0.key = normalizeState s
        · rw [if_pos hk]
          simp only []
          rw [ih e0 he0]
          rfl
        · rw [if_neg hk, ih e0 he0]
          rfl
      · rw [bump_of_not_mem _ _ _ hm] at he
        rcases List.mem_append.mp he with he | he
        · rw [ih e he]
          rfl
        · rcases List.mem_singleton.mp he with rfl
          have h0 : candidateCount inc states (normalizeState s) = 0 := by
            by_contra hpos
            exact hm ((mem_tally_keys_iff inc states _).mpr
              (Nat.pos_of_ne_zero hpos))
          have hnone : firstCandidate inc states (normalizeState s) = none := by
            rw [firstCandidate, List.find?_eq_none]
            intro x hx
            have := candidateCount_zero_all inc states _ h0 x hx
            simp [this]
          rw [hnone]
          simp only [Option.none_or]
          rw [firstCandidate]
          rw [List.find?_cons]
          have : (shouldCount inc s && (normalizeState s == normalizeState s)) = true := by
            simp [hc]
          rw [this]
    · rw [if_neg hc] at he
      rw [ih e he]
      rfl

theorem pair_sublist_append_singleton {α : Type} (a b x : α) (T : List α)
    (h : List.Sublist [a, b] (T ++ [x])) :
    List.Sublist [a, b] T ∨ (a ∈ T ∧ b = x) := by
  induction T with
  | nil =>
    rcases List.sublist_cons_iff.mp h with h' | ⟨t, ht, hs⟩
    · exact absurd (List.sublist_nil.mp h') (by simp)
    · cases ht
      have := List.sublist_nil.mp hs
      simp at this
  | cons c T ih =>
    rcases List.sublist_cons_iff.mp h with h' | ⟨t, ht, hs⟩
    · rcases ih h' with h'' | h''
      · exact Or.inl (h''.cons c)
      · exact Or.inr ⟨List.mem_cons_of_mem c h''.1, h''.2⟩
    · cases ht
      rcases List.singleton_sublist.mp
        (show List.Sublist [b] (T ++ [x]) from hs) |> List.mem_append.mp with hb | hb
      · exact Or.inl (List.Sublist.cons₂ a (List.singleton_sublist.mpr hb))
      · exact Or.inr ⟨List.mem_cons_self a T, List.mem_singleton.mp hb⟩

theorem pair_sublist_map {α β : Type} (f : α → β) (a b : β) (T : List α)
    (h : List.Sublist [a, b] (T.map f)) :
    ∃ a' b', List.Sublist [a', b'] T ∧ a = f a' ∧ b = f b' := by
  rcases List.sublist_map_iff.mp h with ⟨l', hl', heq⟩
  match l', heq with
  | [a', b'], heq =>
    simp only [List.map_cons, List.map_nil, List.cons.injEq] at heq
    exact ⟨a', b', hl', heq.1, heq.2.1⟩

theorem firstOfPair_append (inc : Bool) (states : List String) (s k k' : String) :
    firstOfPair inc (states ++ [s]) k k' =
      (firstOfPair inc states k k').or (firstOfPair inc [s] k k') := by
  rw [firstOfPair, firstOfPair, firstOfPair, List.find?_append]

theorem tally_order (inc : Bool) (states : List String) :
    ∀ e e' : TallyEntry, List.Sublist [e, e'] (tally inc states) →
      ∃ s0, firstOfPair inc states e.key e'.key = some s0 ∧
        normalizeState s0 = e.key := by
  induction states using List.reverseRecOn with
  | nil =>
    intro e e' h
    simp [tally] at h
  | append_singleton states s ih =>
    intro e e' h
    rw [tally_append, tallyStep] at h
    rw [firstOfPair_append]
    by_cases hc : shouldCount inc s
    · rw [if_pos hc] at h
      by_cases hm : normalizeState s ∈ (tally inc states).map TallyEntry.key
      · rw [bump_of_mem _ _ _ (tally_keys_nodup inc states) hm] at h
        rcases pair_sublist_map _ e e' _ h with ⟨a, b, hab, ha, hb⟩
        have hka : e.key = a.key := by
          rw [ha]; by_cases h1 : a.key = normalizeState s <;> simp [h1]
        have hkb : e'.key = b.key := by
          rw [hb]; by_cases h1 : b.key = normalizeState s <;> simp [h1]
        rcases ih a b hab with ⟨s0, hs0, hn0⟩
        rw [hka, hkb, hs0]
        exact ⟨s0, rfl, hn0⟩
      · rw [bump_of_not_mem _ _ _ hm] at h
        rcases pair_sublist_append_singleton e e' _ _ h with h' | ⟨hmem, rfl⟩
        · rcases ih e e' h' with ⟨s0, hs0, hn0⟩
          rw [hs0]
          exact ⟨s0, rfl, hn0⟩
        · have h0 : candidateCount inc states (normalizeState s) = 0 := by
            by_contra hpos
            exact hm ((mem_tally_keys_iff inc states _).mpr
              (Nat.pos_of_ne_zero hpos))
          have hall := candidateCount_zero_all inc states _ h0
          have hcongr : firstOfPair inc states e.key (normalizeState s) =
              firstCandidate inc states e.key := by
            rw [firstOfPair, firstCandidate]
            apply find?_congr_local
            intro x hx
            have hxf := hall x hx
            cases hsc : shouldCount inc x with
            | false => simp [hsc]
            | true =>
              have hne : (normalizeState x == normalizeState s) = false := by
                rw [hsc] at hxf; simpa using hxf
              simp [hsc, hne]
          have hlab := tally_label inc states e hmem
          have hp := List.find?_some hlab
          have hnorm : normalizeState e.label = e.key := by
            simp only [Bool.and_eq_true, beq_iff_eq] at hp
            exact hp.2
          refine ⟨e.label, ?_, hnorm⟩
          show (firstOfPair inc states e.key (normalizeState s)).or
            (firstOfPair inc [s] e.key (normalizeState s)) = some e.label
          rw [hcongr, hlab]
          rfl
    · rw [if_neg hc] at h
      rcases ih e e' h with ⟨s0, hs0, hn0⟩
      rw [hs0]
      exact ⟨s0, rfl, hn0⟩

theorem pickBest_go_le (l : List TallyEntry) :
    ∀ b : String × ℕ × String, (∀ e ∈ l, e.count ≤ b.2.1) →
      l.foldl (fun best e =>
        if e.count > best.2.1 then (e.key, e.count, e.label) else best) b = b := by
  induction l with
  | nil => intro b _; rfl
  | cons e l ih =>
    intro b hb
    rw [List.foldl_cons]
    rw [if_neg (by have := hb e (List.mem_cons_self e l); omega)]
    exact ih b (fun x hx => hb x (List.mem_cons_of_mem e hx))

theorem pickBest_go_max (l : List TallyEntry) (hnd : l.Nodup) :
    ∀ b : String × ℕ × String, (∃ e ∈ l, b.2.1 < e.count) →
      ∃ r ∈ l, l.foldl (fun best e =>
          if e.count > best.2.1 then (e.key, e.count, e.label) else best) b =
        (r.key, r.count, r.label) ∧ b.2.1 < r.count ∧
        (∀ e ∈ l, e.count ≤ r.count) ∧
        (∀ x : TallyEntry, List.Sublist [x, r] l → x.count < r.count) := by
  induction l with
  | nil => rintro b ⟨e, he, _⟩; simp at he
  | cons e l ih =>
    have hel : e ∉ l := (List.nodup_cons.mp hnd).1
    have hndl : l.Nodup := (List.nodup_cons.mp hnd).2
    intro b hex
    rw [List.foldl_cons]
    by_cases hgt : e.count > b.2.1
    · rw [if_pos hgt]
      by_cases hall : ∀ x ∈ l, x.count ≤ e.count
      · refine ⟨e, List.mem_cons_self e l, ?_, hgt, ?_, ?_⟩
        · exact pickBest_go_le l (e.key, e.count, e.label) (by simpa using hall)
        · intro x hx
          rcases List.mem_cons.mp hx with rfl | hx'
          · exact le_refl _
          · exact hall x hx'
        · intro x hx
          rcases List.sublist_cons_iff.mp hx with hx' | ⟨t, ht, hs⟩
          · exact absurd (List.singleton_sublist.mp
              ((List.sublist_cons_self x [e]).trans hx')) hel
          · cases ht
            exact absurd (List.singleton_sublist.mp hs) hel
      · push_neg at hall
        rcases hall with ⟨y, hy, hylt⟩
        rcases ih hndl (e.key, e.count, e.label) ⟨y, hy, by simpa using hylt⟩
          with ⟨r, hr, heq, hlt, hmax, hbefore⟩
        simp only at hlt
        refine ⟨r, List.mem_cons_of_mem e hr, heq, by omega, ?_, ?_⟩
        · intro x hx
          rcases List.mem_cons.mp hx with rfl | hx'
          · omega
          · exact hmax x hx'
        · intro x hx
          rcases List.sublist_cons_iff.mp hx with hx' | ⟨t, ht, hs⟩
          · exact hbefore x hx'
          · cases ht
            have : r ∈ l := List.singleton_sublist.mp hs
            omega
    · rw [if_neg hgt]
      have hex' : ∃ y ∈ l, b.2.1 < y.count := by
        rcases hex with ⟨y, hy, hlt⟩
        rcases List.mem_cons.mp hy with rfl | hy'
        · omega
        · exact ⟨y, hy', hlt⟩
      rcases ih hndl b hex' with ⟨r, hr, heq, hlt, hmax, hbefore⟩
      refine ⟨r, List.mem_cons_of_mem e hr, heq, hlt, ?_, ?_⟩
      · intro x hx
        rcases List.mem_cons.mp hx with rfl | hx'
        · omega
        · exact hmax x hx'
      · intro x hx
        rcases List.sublist_cons_iff.mp hx with hx' | ⟨t, ht, hs⟩
        · exact hbefore x hx'
        · cases ht
          omega

theorem pair_sublist_of_mem {α : Type} (l : List α) (a b : α)
    (ha : a ∈ l) (hb : b ∈ l) (hab : a ≠ b) :
    List.Sublist [a, b] l ∨ List.Sublist [b, a] l := by
  induction l with
  | nil => simp at ha
  | cons x l ih =>
    rcases List.mem_cons.mp ha with rfl | ha'
    · have hb' : b ∈ l := by
        rcases List.mem_cons.mp hb with rfl | h
        · exact absurd rfl hab
        · exact h
      exact Or.inl (List.Sublist.cons₂ a (List.singleton_sublist.mpr hb'))
    · rcases List.mem_cons.mp hb with rfl | hb'
      · exact Or.inr (List.Sublist.cons₂ b (List.singleton_sublist.mpr ha'))
      · rcases ih ha' hb' with h | h
        · exact Or.inl (h.cons x)
        · exact Or.inr (h.cons x)

theorem tally_nil_of_none (inc : Bool) (states : List String)
    (h : ∀ s ∈ states, shouldCount inc s = false) :
    tally inc states = [] := by
  induction states using List.reverseRecOn with
  | nil => rfl
  | append_singleton states s ih =>
    rw [tally_append, tallyStep]
    rw [if_neg (by simp [h s (by simp)])]
    exact ih (fun x hx => h x (by simp [hx]))

theorem tally_key_ne_empty (inc : Bool) (states : List String) :
    ∀ e ∈ tally inc states, e.key ≠ "" ∧ e.label ≠ "" := by
  intro e he
  have hk : 0 < candidateCount inc states e.key :=
    (mem_tally_keys_iff inc states e.key).mp (List.mem_map_of_mem _ he)
  have hlab := tally_label inc states e he
  have hp := List.find?_some hlab
  simp only [Bool.and_eq_true, beq_iff_eq] at hp
  have hne := shouldCount_norm_ne inc e.label hp.1
  constructor
  · rw [← hp.2]; exact hne
  · intro hl
    rw [hl] at hne
    exact hne rfl

/-- C6: over the sliding window of the last 60 observed labels, the
most-frequent-non-focused-label resolver returns no label exactly when no
counted candidate exists (non-empty, not focused-equivalent, talking
excluded while disabled); otherwise it returns the first-seen original
label of a key whose count is maximal, and ties on count are broken in
favour of the first-seen key. -/
theorem mostCommonDistractor_spec (states : List String) (inc : Bool) :
    (∀ (prev : List String) (s : String),
      pushRecentState prev s = lastN 60 (prev ++ [s]) ∧
      (pushRecentState prev s).length ≤ 60) ∧
    (computeMostCommonDistractor states inc = "" ↔
      ∀ s ∈ states, shouldCount inc s = false) ∧
    (computeMostCommonDistractor states inc ≠ "" →
      ∃ k, firstCandidate inc states k =
          some (computeMostCommonDistractor states inc) ∧
        0 < candidateCount inc states k ∧
        (∀ k', candidateCount inc states k' ≤ candidateCount inc states k) ∧
        (∀ k', k' ≠ k →
          candidateCount inc states k' = candidateCount inc states k →
          ∃ s0, firstOfPair inc states k k' = some s0 ∧
            normalizeState s0 = k)) := by
  have hmain : tally inc states ≠ [] →
      ∃ r ∈ tally inc states,
        pickBest (tally inc states) = (r.key, r.count, r.label) ∧
        0 < r.count ∧ (∀ e ∈ tally inc states, e.count ≤ r.count) ∧
        (∀ x : TallyEntry, List.Sublist [x, r] (tally inc states) →
          x.count < r.count) := by
    intro hne
    rcases List.exists_mem_of_ne_nil _ hne with ⟨e0, he0⟩
    have hpos : 0 < e0.count := by
      rw [tally_count inc states e0 he0]
      exact (mem_tally_keys_iff inc states e0.key).mp
        (List.mem_map_of_mem _ he0)
    have hnd : (tally inc states).Nodup := (tally_keys_nodup inc states).of_map _
    rcases pickBest_go_max (tally inc states) hnd ("", 0, "") ⟨e0, he0, hpos⟩
      with ⟨r, hr, heq, hlt, hmax, hbefore⟩
    exact ⟨r, hr, heq, hlt, hmax, hbefore⟩
  refine ⟨?_, ⟨?_, ?_⟩, ?_⟩
  · intro prev s
    refine ⟨rfl, ?_⟩
    rw [pushRecentState, length_lastN]
    omega
  · intro hres
    by_contra hs
    push_neg at hs
    rcases hs with ⟨s, hsmem, hsc⟩
    have hsc' : shouldCount inc s = true := by
      cases h : shouldCount inc s
      · exact absurd h hsc
      · rfl
    have hcnt : 0 < candidateCount inc states (normalizeState s) :=
      (candidateCount_pos_iff inc states (normalizeState s)).mpr
        ⟨s, hsmem, by simp [hsc']⟩
    have hkeys : normalizeState s ∈ (tally inc states).map TallyEntry.key :=
      (mem_tally_keys_iff inc states (normalizeState s)).mpr hcnt
    have hne : tally inc states ≠ [] := by
      intro h
      rw [h] at hkeys
      simp at hkeys
    rcases hmain hne with ⟨r, hr, heq, _, _, _⟩
    have hkey := (tally_key_ne_empty inc states r hr).1
    have hlabel := (tally_key_ne_empty inc states r hr).2
    simp only [computeMostCommonDistractor, heq] at hres
    rw [if_pos hkey] at hres
    exact hlabel hres
  · intro h
    have ht := tally_nil_of_none inc states h
    simp [computeMostCommonDistractor, ht, pickBest]
  · intro hres
    have hne : tally inc states ≠ [] := by
      intro h
      apply hres
      simp [computeMostCommonDistractor, h, pickBest]
    rcases hmain hne with ⟨r, hr, heq, hpos, hmax, hbefore⟩
    have hkeyne := (tally_key_ne_empty inc states r hr).1
    have hresval : computeMostCommonDistractor states inc = r.label := by
      simp only [computeMostCommonDistractor, heq]
      rw [if_pos hkeyne]
    have hc : candidateCount inc states r.key = r.count :=
      (tally_count inc states r hr).symm
    refine ⟨r.key, ?_, ?_, ?_, ?_⟩
    · rw [hresval]
      exact tally_label inc states r hr
    · rw [hc]
      exact hpos
    · intro k'
      by_cases h0 : candidateCount inc states k' = 0
      · rw [h0]
        exact Nat.zero_le _
      · have hmem : k' ∈ (tally inc states).map TallyEntry.key :=
          (mem_tally_keys_iff inc states k').mpr (Nat.pos_of_ne_zero h0)
        rcases List.mem_map.mp hmem with ⟨e', he', rfl⟩
        rw [← tally_count inc states e' he', hc]
        exact hmax e' he'
    · intro k' hk' hcnt'
      have hpos' : 0 < candidateCount inc states k' := by
        rw [hcnt', hc]
        exact hpos
      have hmem : k' ∈ (tally inc states).map TallyEntry.key :=
        (mem_tally_keys_iff inc states k').mpr hpos'
      rcases List.mem_map.mp hmem with ⟨e', he', rfl⟩
      have hne' : e' ≠ r := fun h => hk' (by rw [h])
      rcases pair_sublist_of_mem (tally inc states) e' r he' hr hne'
        with hsub | hsub
      · exfalso
        have hlt := hbefore e' hsub
        rw [tally_count inc states e' he', tally_count inc states r hr] at hlt
        omega
      · exact tally_order inc states r e' hsub

/-- C6 witness: on a concrete window the resolver returns "looking left",
the majority non-focused label, with all the stated properties. -/
theorem mostCommonDistractor_spec_witness :
    computeMostCommonDistractor
      ["looking left", "Phone", "looking left", "focused", ""] true ≠ "" ∧
    (∃ k, firstCandidate true
        ["looking left", "Phone", "looking left", "focused", ""] k =
        some (computeMostCommonDistractor
          ["looking left", "Phone", "looking left", "focused", ""] true) ∧
      0 < candidateCount true
        ["looking left", "Phone", "looking left", "focused", ""] k ∧
      (∀ k', candidateCount true
          ["looking left", "Phone", "looking left", "focused", ""] k' ≤
        candidateCount true
          ["looking left", "Phone", "looking left", "focused", ""] k) ∧
      (∀ k', k' ≠ k →
        candidateCount true
          ["looking left", "Phone", "looking left", "focused", ""] k' =
          candidateCount true
            ["looking left", "Phone", "looking left", "focused", ""] k →
        ∃ s0, firstOfPair true
            ["looking left", "Phone", "looking left", "focused", ""] k k' =
            some s0 ∧ normalizeState s0 = k)) :=
  ⟨by decide,
    (mostCommonDistractor_spec
      ["looking left", "Phone", "looking left", "focused", ""] true).2.2
      (by decide)⟩
